import Mathlib

/-!
Verification of `binaryinstall` (remote binary installation over SSH).

The Go sources are shallowly embedded below:
* strings are `List Char`,
* `time.Now().UnixNano()` is an oracle (`Nat` argument / `Nat → Nat` per upload),
* the SSH transport (`exec.Command("ssh", ...)` in `executeSSHCommand`) is an
  oracle `List Char → Option (List Char)` returning `none` on success and
  `some errorMessage` on failure, exactly the success/failure surface the
  orchestrator observes,
* the goroutine fan-out of `InstallBinaries` is modelled by processing every
  upload independently and collecting the wrapped errors; the channel drain
  order (which is scheduling dependent in Go) is modelled as slice order.
  The properties proved about aggregation hold for any drain order.
-/

set_option maxRecDepth 40000

namespace BinaryInstall

/-- `BinaryUpload` from binaryinstall.go: one tar.gz upload to install. -/
structure BinaryUpload where
  Path : List Char
  DestinationDir : List Char
  Owner : List Char
  Permission : List Char
  BindLowPorts : Bool
deriving DecidableEq

/-- `BinaryInstallConfig` from binaryinstall.go. -/
structure BinaryInstallConfig where
  RemoteHost : List Char
  SSHUser : List Char
  SSHKeyPath : List Char
  Uploads : List BinaryUpload
  BackupDir : List Char
  Verbose : Bool
deriving DecidableEq

/-- `ScriptData` from binaryinstall.go: the values substituted into
`scriptTemplate`. -/
structure ScriptData where
  TempDir : List Char
  UploadPath : List Char
  BinaryName : List Char
  BackupDir : List Char
  DestinationDir : List Char
  Owner : List Char
  Permission : List Char
  BindLowPorts : Bool
deriving DecidableEq

/-- Go `path/filepath.Base` (unix): empty path gives ".", trailing slashes are
dropped, then everything after the final slash is kept ("/" if nothing is
left). -/
def filepathBase (path : List Char) : List Char :=
  if path = [] then ".".data
  else
    let trimmed := (path.reverse.dropWhile (fun c => c = '/')).reverse
    if trimmed = [] then "/".data
    else (trimmed.reverse.takeWhile (fun c => c ≠ '/')).reverse

/-- Go `strings.TrimSuffix`: drop `suffix` from the end when present,
otherwise return the string unchanged. -/
def trimSuffix (s suffix : List Char) : List Char :=
  if suffix <:+ s then s.take (s.length - suffix.length) else s

/-- Go `strings.Split(s, sep)` for a single-character separator: the list of
maximal (possibly empty) runs between occurrences of `sep`.  Note that the
result is never the empty list — `strings.Split` returns at least one
element. -/
def splitOnChar (sep : Char) : List Char → List (List Char)
  | [] => [[]]
  | c :: cs =>
    match splitOnChar sep cs with
    | [] => [[]]
    | h :: t => if c = sep then [] :: h :: t else (c :: h) :: t

/-- The naming derivation at the top of `processUploadSingleCommand`
(binaryinstall.go lines 132-138): take the base of the path, trim the
".tar.gz" suffix, split on underscores; error when the split produced no
parts, otherwise `parts[0]` is the binary name. -/
def deriveBinaryName (path : List Char) : Option (List Char) :=
  let base := filepathBase path
  let nameWithoutExt := trimSuffix base ".tar.gz".data
  let parts := splitOnChar '_' nameWithoutExt
  match parts with
  | [] => none
  | p :: _ => some p

/-- The decimal digit characters used by `fmt.Sprintf("%d", n)`. -/
def dchar (d : Nat) : Char := Char.ofNat (48 + d)

/-- Decimal rendering of a natural number, as `fmt.Sprintf("%d", n)`
produces it. -/
def natToDecimal (n : Nat) : List Char :=
  if n = 0 then "0".data
  else ((Nat.digits 10 n).map dchar).reverse

/-- `fmt.Sprintf("/tmp/install-%d", nano)` from `processUploadSingleCommand`
(binaryinstall.go line 141); `nano` is the observed `time.Now().UnixNano()`
value. -/
def tempDirFor (nano : Nat) : List Char :=
  "/tmp/install-".data ++ natToDecimal nano

/-! ### The script composer

`scriptTemplate.Execute` on the fixed template of binaryinstall.go is pure
text substitution: the rendered script is the template's literal text with
each `{{.Field}}` action replaced by the field's value and the
`{{ if .BindLowPorts }}...{{ end }}` body included exactly when the flag is
set.  `renderScript` below is that rendering, literal for literal (the
apostrophes of the `setcap` line are written `\x27`).  The individual
numbered command lines of the template are also named (`opMkTempDir`, ...)
so that ordering properties can be stated about them. -/

/-- Step 1 of the template: `mkdir -p {{.TempDir}}`. -/
def opMkTempDir (d : ScriptData) : List Char :=
  "mkdir -p ".data ++ d.TempDir

/-- Step 2: `tar -xzf "{{.UploadPath}}" -C "{{.TempDir}}"`. -/
def opExtract (d : ScriptData) : List Char :=
  "tar -xzf \"".data ++ d.UploadPath ++ "\" -C \"".data ++ d.TempDir ++ "\"".data

/-- Step 3: `test -f "{{.TempDir}}/{{.BinaryName}}"`. -/
def opCheckBinary (d : ScriptData) : List Char :=
  "test -f \"".data ++ d.TempDir ++ "/".data ++ d.BinaryName ++ "\"".data

/-- Step 4: `mkdir -p "{{.BackupDir}}"`. -/
def opMkBackupDir (d : ScriptData) : List Char :=
  "mkdir -p \"".data ++ d.BackupDir ++ "\"".data

/-- Step 5: the conditional backup move of an existing destination binary. -/
def opBackupExisting (d : ScriptData) : List Char :=
  "if [ -f \"".data ++ d.DestinationDir ++ "/".data ++ d.BinaryName
    ++ "\" ]; then\n    sudo mv \"".data ++ d.DestinationDir ++ "/".data ++ d.BinaryName
    ++ "\" \"".data ++ d.BackupDir ++ "\"/\nfi".data

/-- Step 6: `sudo cp "{{.TempDir}}/{{.BinaryName}}" "{{.DestinationDir}}"`. -/
def opCopyBinary (d : ScriptData) : List Char :=
  "sudo cp \"".data ++ d.TempDir ++ "/".data ++ d.BinaryName
    ++ "\" \"".data ++ d.DestinationDir ++ "\"".data

/-- Step 7: `sudo chown {{.Owner}}:{{.Owner}} "{{.DestinationDir}}/{{.BinaryName}}"`. -/
def opChown (d : ScriptData) : List Char :=
  "sudo chown ".data ++ d.Owner ++ ":".data ++ d.Owner
    ++ " \"".data ++ d.DestinationDir ++ "/".data ++ d.BinaryName ++ "\"".data

/-- Step 8: `sudo chmod {{.Permission}} "{{.DestinationDir}}/{{.BinaryName}}"`. -/
def opChmod (d : ScriptData) : List Char :=
  "sudo chmod ".data ++ d.Permission
    ++ " \"".data ++ d.DestinationDir ++ "/".data ++ d.BinaryName ++ "\"".data

/-- Step 9: `rm -rf "{{.TempDir}}"`. -/
def opRemoveTempDir (d : ScriptData) : List Char :=
  "rm -rf \"".data ++ d.TempDir ++ "\"".data

/-- Step 10 (conditional): the capability grant
`sudo setcap 'cap_net_bind_service=+ep' "{{.DestinationDir}}/{{.BinaryName}}"`. -/
def opSetcap (d : ScriptData) : List Char :=
  "sudo setcap \x27cap_net_bind_service=+ep\x27 \"".data
    ++ d.DestinationDir ++ "/".data ++ d.BinaryName ++ "\"".data

/-- `scriptTemplate` rendered with `d` (binaryinstall.go lines 43-79):
the template text verbatim, with field actions substituted and the
`{{ if .BindLowPorts }}` body present exactly when the flag is set. -/
def renderScript (d : ScriptData) : List Char :=
  "\nset -e\n\n# 1) Make the temporary directory\n".data
  ++ "mkdir -p ".data ++ d.TempDir
  ++ "\n\n# 2) Extract the tarball\n".data
  ++ "tar -xzf \"".data ++ d.UploadPath ++ "\" -C \"".data ++ d.TempDir ++ "\"".data
  ++ "\n\n# 3) Verify the new binary exists\n".data
  ++ "test -f \"".data ++ d.TempDir ++ "/".data ++ d.BinaryName ++ "\"".data
  ++ "\n\n# 4) Ensure backup directory exists\n".data
  ++ "mkdir -p \"".data ++ d.BackupDir ++ "\"".data
  ++ "\n\n# 5) Backup existing binary if it exists\n".data
  ++ "if [ -f \"".data ++ d.DestinationDir ++ "/".data ++ d.BinaryName
  ++ "\" ]; then\n    sudo mv \"".data ++ d.DestinationDir ++ "/".data ++ d.BinaryName
  ++ "\" \"".data ++ d.BackupDir ++ "\"/\nfi".data
  ++ "\n\n# 6) Copy the new binary to destination\n".data
  ++ "sudo cp \"".data ++ d.TempDir ++ "/".data ++ d.BinaryName
  ++ "\" \"".data ++ d.DestinationDir ++ "\"".data
  ++ "\n\n# 7) Set ownership\n".data
  ++ "sudo chown ".data ++ d.Owner ++ ":".data ++ d.Owner
  ++ " \"".data ++ d.DestinationDir ++ "/".data ++ d.BinaryName ++ "\"".data
  ++ "\n\n# 8) Set permissions\n".data
  ++ "sudo chmod ".data ++ d.Permission
  ++ " \"".data ++ d.DestinationDir ++ "/".data ++ d.BinaryName ++ "\"".data
  ++ "\n\n# 9) Remove the temporary directory\n".data
  ++ "rm -rf \"".data ++ d.TempDir ++ "\"".data
  ++ "\n\n".data
  ++ (if d.BindLowPorts then
        "\n# 10) Grant capability to bind to low-numbered ports\n".data
        ++ "sudo setcap \x27cap_net_bind_service=+ep\x27 \"".data
        ++ d.DestinationDir ++ "/".data ++ d.BinaryName ++ "\"".data ++ "\n".data
      else [])
  ++ "\n".data

/-- The tail of the rendered script after step 9: the blank line, the
optional capability-grant block and the final newline. -/
def rAfter9 (d : ScriptData) : List Char :=
  "\n\n".data
  ++ (if d.BindLowPorts then
        "\n# 10) Grant capability to bind to low-numbered ports\n".data
        ++ opSetcap d ++ "\n".data
      else [])
  ++ "\n".data

/-- Tail of the rendered script after step 8. -/
def rAfter8 (d : ScriptData) : List Char :=
  "\n\n# 9) Remove the temporary directory\n".data ++ (opRemoveTempDir d ++ rAfter9 d)

/-- Tail of the rendered script after step 7. -/
def rAfter7 (d : ScriptData) : List Char :=
  "\n\n# 8) Set permissions\n".data ++ (opChmod d ++ rAfter8 d)

/-- Tail of the rendered script after step 6. -/
def rAfter6 (d : ScriptData) : List Char :=
  "\n\n# 7) Set ownership\n".data ++ (opChown d ++ rAfter7 d)

/-- Tail of the rendered script after step 5. -/
def rAfter5 (d : ScriptData) : List Char :=
  "\n\n# 6) Copy the new binary to destination\n".data ++ (opCopyBinary d ++ rAfter6 d)

/-- Tail of the rendered script after step 4. -/
def rAfter4 (d : ScriptData) : List Char :=
  "\n\n# 5) Backup existing binary if it exists\n".data ++ (opBackupExisting d ++ rAfter5 d)

/-- Tail of the rendered script after step 3. -/
def rAfter3 (d : ScriptData) : List Char :=
  "\n\n# 4) Ensure backup directory exists\n".data ++ (opMkBackupDir d ++ rAfter4 d)

/-- Tail of the rendered script after step 2. -/
def rAfter2 (d : ScriptData) : List Char :=
  "\n\n# 3) Verify the new binary exists\n".data ++ (opCheckBinary d ++ rAfter3 d)

/-- Tail of the rendered script after step 1. -/
def rAfter1 (d : ScriptData) : List Char :=
  "\n\n# 2) Extract the tarball\n".data ++ (opExtract d ++ rAfter2 d)

/-- The operations of the composed script, in the order the template puts
them; the capability grant appears exactly when `BindLowPorts` is set. -/
def opsList (d : ScriptData) : List (List Char) :=
  [opMkTempDir d, opExtract d, opCheckBinary d, opMkBackupDir d, opBackupExisting d,
   opCopyBinary d, opChown d, opChmod d, opRemoveTempDir d]
  ++ (if d.BindLowPorts then [opSetcap d] else [])

/-- The configuration fields substituted into the template. -/
def scriptFields (d : ScriptData) : List (List Char) :=
  [d.TempDir, d.UploadPath, d.BinaryName, d.BackupDir, d.DestinationDir,
   d.Owner, d.Permission]

/-- Concatenation of a list of string segments. -/
def joinSegs : List (List Char) → List Char
  | [] => []
  | s :: rest => s ++ joinSegs rest

/-- The rendered script cut into its template segments (literal runs and
substituted fields), for the case `BindLowPorts = false`. -/
def segsFalse (d : ScriptData) : List (List Char) :=
  ["\nset -e\n\n# 1) Make the temporary directory\n".data,
   "mkdir -p ".data, d.TempDir,
   "\n\n# 2) Extract the tarball\n".data,
   "tar -xzf \"".data, d.UploadPath, "\" -C \"".data, d.TempDir, "\"".data,
   "\n\n# 3) Verify the new binary exists\n".data,
   "test -f \"".data, d.TempDir, "/".data, d.BinaryName, "\"".data,
   "\n\n# 4) Ensure backup directory exists\n".data,
   "mkdir -p \"".data, d.BackupDir, "\"".data,
   "\n\n# 5) Backup existing binary if it exists\n".data,
   "if [ -f \"".data, d.DestinationDir, "/".data, d.BinaryName,
   "\" ]; then\n    sudo mv \"".data, d.DestinationDir, "/".data, d.BinaryName,
   "\" \"".data, d.BackupDir, "\"/\nfi".data,
   "\n\n# 6) Copy the new binary to destination\n".data,
   "sudo cp \"".data, d.TempDir, "/".data, d.BinaryName,
   "\" \"".data, d.DestinationDir, "\"".data,
   "\n\n# 7) Set ownership\n".data,
   "sudo chown ".data, d.Owner, ":".data, d.Owner,
   " \"".data, d.DestinationDir, "/".data, d.BinaryName, "\"".data,
   "\n\n# 8) Set permissions\n".data,
   "sudo chmod ".data, d.Permission,
   " \"".data, d.DestinationDir, "/".data, d.BinaryName, "\"".data,
   "\n\n# 9) Remove the temporary directory\n".data,
   "rm -rf \"".data, d.TempDir, "\"".data,
   "\n\n".data,
   "\n".data]

/-- The rendered script cut into its template segments, for the case
`BindLowPorts = true`. -/
def segsTrue (d : ScriptData) : List (List Char) :=
  ["\nset -e\n\n# 1) Make the temporary directory\n".data,
   "mkdir -p ".data, d.TempDir,
   "\n\n# 2) Extract the tarball\n".data,
   "tar -xzf \"".data, d.UploadPath, "\" -C \"".data, d.TempDir, "\"".data,
   "\n\n# 3) Verify the new binary exists\n".data,
   "test -f \"".data, d.TempDir, "/".data, d.BinaryName, "\"".data,
   "\n\n# 4) Ensure backup directory exists\n".data,
   "mkdir -p \"".data, d.BackupDir, "\"".data,
   "\n\n# 5) Backup existing binary if it exists\n".data,
   "if [ -f \"".data, d.DestinationDir, "/".data, d.BinaryName,
   "\" ]; then\n    sudo mv \"".data, d.DestinationDir, "/".data, d.BinaryName,
   "\" \"".data, d.BackupDir, "\"/\nfi".data,
   "\n\n# 6) Copy the new binary to destination\n".data,
   "sudo cp \"".data, d.TempDir, "/".data, d.BinaryName,
   "\" \"".data, d.DestinationDir, "\"".data,
   "\n\n# 7) Set ownership\n".data,
   "sudo chown ".data, d.Owner, ":".data, d.Owner,
   " \"".data, d.DestinationDir, "/".data, d.BinaryName, "\"".data,
   "\n\n# 8) Set permissions\n".data,
   "sudo chmod ".data, d.Permission,
   " \"".data, d.DestinationDir, "/".data, d.BinaryName, "\"".data,
   "\n\n# 9) Remove the temporary directory\n".data,
   "rm -rf \"".data, d.TempDir, "\"".data,
   "\n\n".data,
   "\n# 10) Grant capability to bind to low-numbered ports\n".data,
   "sudo setcap \x27cap_net_bind_service=+ep\x27 \"".data,
   d.DestinationDir, "/".data, d.BinaryName, "\"".data, "\n".data,
   "\n".data]

/-- Number of positions of `s` at which `pat` occurs (occurrences may
overlap). -/
def countOcc (pat : List Char) : List Char → Nat
  | [] => if pat <+: ([] : List Char) then 1 else 0
  | c :: t => (if pat <+: (c :: t) then 1 else 0) + countOcc pat t

/-- The last character of `a` exists and does not occur in `pat`. -/
def lastGuard (pat a : List Char) : Prop :=
  ∃ c, a.getLast? = some c ∧ c ∉ pat

/-- The first character of `b` exists and does not occur in `pat`. -/
def headGuard (pat b : List Char) : Prop :=
  ∃ c, b.head? = some c ∧ c ∉ pat

instance (pat a : List Char) : Decidable (lastGuard pat a) := by
  unfold lastGuard
  rcases a.getLast? with _ | c
  · exact .isFalse (by simp)
  · exact decidable_of_iff (c ∉ pat) (by simp)

instance (pat b : List Char) : Decidable (headGuard pat b) := by
  unfold headGuard
  rcases b.head? with _ | c
  · exact .isFalse (by simp)
  · exact decidable_of_iff (c ∉ pat) (by simp)

/-- A segment list in which no occurrence of `pat` can straddle a segment
boundary: at every boundary, the character just left of it or the character
just right of it is foreign to `pat`. -/
inductive Glued (pat : List Char) : List (List Char) → Prop where
  | nil : Glued pat []
  | single (a : List Char) : Glued pat [a]
  | left (a b : List Char) (rest : List (List Char))
      (hg : lastGuard pat a) (h : Glued pat (b :: rest)) : Glued pat (a :: b :: rest)
  | right (a b : List Char) (rest : List (List Char))
      (hg : headGuard pat b) (h : Glued pat (b :: rest)) : Glued pat (a :: b :: rest)

/-- `ContainsInOrder s ops` holds when the strings `ops` occur in `s`, in
the given order, as pairwise-disjoint segments. -/
inductive ContainsInOrder : List Char → List (List Char) → Prop where
  | nil (s : List Char) : ContainsInOrder s []
  | cons (pre op s' : List Char) (ops : List (List Char))
      (h : ContainsInOrder s' ops) : ContainsInOrder (pre ++ op ++ s') (op :: ops)

/-- Fail-fast sequential execution of a list of operations, as a
`set -e` shell runs the composed script: each operation runs in order;
the first operation for which `failing` holds stops the run and the whole
script reports failure.  Returns the executed prefix of operations and the
overall success flag. -/
def runFailFast (failing : List Char → Bool) : List (List Char) → List (List Char) × Bool
  | [] => ([], true)
  | op :: rest =>
    if failing op then ([op], false)
    else
      let r := runFailFast failing rest
      (op :: r.1, r.2)

/-- `fmt.Sprintf("%s@%s", config.SSHUser, config.RemoteHost)` from
`executeSSHCommand`. -/
def sshTarget (config : BinaryInstallConfig) : List Char :=
  config.SSHUser ++ "@".data ++ config.RemoteHost

/-- The argument vector `executeSSHCommand` hands to the process runner:
`exec.Command("ssh", "-i", config.SSHKeyPath, sshTarget, command)`.  The
composed script is passed through as the single final argument. -/
def sshArgv (config : BinaryInstallConfig) (command : List Char) : List (List Char) :=
  ["ssh".data, "-i".data, config.SSHKeyPath, sshTarget config, command]

/-- `fmt.Errorf("failed to process upload '%s': %w", upload.Path, err)` from
the goroutine body of `InstallBinaries`. -/
def failWrap (path msg : List Char) : List Char :=
  "failed to process upload \x27".data ++ path ++ "\x27: ".data ++ msg

/-- `processUploadSingleCommand` (binaryinstall.go lines 130-172), with the
SSH transport abstracted as the oracle `ssh` (`none` = success, `some msg` =
failure) and the observed `UnixNano` value as `nano`.  Returns the error (if
any) together with the list of scripts actually sent over SSH. -/
def processUploadT (ssh : List Char → Option (List Char))
    (config : BinaryInstallConfig) (nano : Nat) (upload : BinaryUpload) :
    Option (List Char) × List (List Char) :=
  match deriveBinaryName upload.Path with
  | none =>
    (some ("unable to derive binary name from ".data ++ filepathBase upload.Path), [])
  | some binaryName =>
    let script := renderScript
      ⟨tempDirFor nano, upload.Path, binaryName, config.BackupDir,
       upload.DestinationDir, upload.Owner, upload.Permission, upload.BindLowPorts⟩
    (ssh script, [script])

/-- `InstallBinaries` (binaryinstall.go lines 93-124) together with the
trace of remote executions.  Every upload is processed independently (the
goroutines share nothing but the error channel); the wrapped errors are
collected and the first one, if any, is returned.  `nanos i` is the
`UnixNano` value observed by the goroutine of upload `i`. -/
def InstallBinariesT (ssh : List Char → Option (List Char)) (nanos : Nat → Nat)
    (config : BinaryInstallConfig) : Option (List Char) × List (List Char) :=
  if config.Uploads = [] then (some "no uploads provided".data, [])
  else
    ((config.Uploads.enum.filterMap (fun iu =>
        ((processUploadT ssh config (nanos iu.1) iu.2).1).map (failWrap iu.2.Path))).head?,
     (config.Uploads.enum.map (fun iu =>
        (processUploadT ssh config (nanos iu.1) iu.2).2)).flatten)

/-- The orchestrator's result: `none` on success, `some errorMessage` on
failure. -/
def InstallBinaries (ssh : List Char → Option (List Char)) (nanos : Nat → Nat)
    (config : BinaryInstallConfig) : Option (List Char) :=
  (InstallBinariesT ssh nanos config).1

/-- The scripts sent to the remote executor during one `InstallBinaries`
run. -/
def remoteCalls (ssh : List Char → Option (List Char)) (nanos : Nat → Nat)
    (config : BinaryInstallConfig) : List (List Char) :=
  (InstallBinariesT ssh nanos config).2

/-! ### Concrete data used by witnesses and counterexamples -/

/-- The round-trip scenario data of the specification: `service_Linux_x86_64`
installed to `/usr/local/bin` as root with mode 0755 and the capability
grant enabled, against backup directory `/bak`. -/
def dRound : ScriptData :=
  ⟨"/tmp/install-1".data, "/tmp/service_Linux_x86_64.tar.gz".data, "service".data,
   "/bak".data, "/usr/local/bin".data, "root".data, "0755".data, true⟩

/-- A script input whose temp-directory field itself mentions `setcap`,
although the capability flag is off. -/
def dBad : ScriptData :=
  ⟨"setcap".data, "/tmp/a.tar.gz".data, "a".data,
   "/bak".data, "/usr/local/bin".data, "root".data, "0755".data, false⟩

/-- A fault model in which exactly the existence-check operation of the
round-trip script fails. -/
def failCheck : List Char → Bool := fun op => op == opCheckBinary dRound

/-- A transport oracle that always succeeds. -/
def sshOk : List Char → Option (List Char) := fun _ => none

/-- A transport oracle that always fails. -/
def sshBoom : List Char → Option (List Char) :=
  fun _ => some "command failed: exit status 1; output: ".data

/-- A clock oracle: upload `i` observes nanosecond `i`. -/
def nanosId : Nat → Nat := fun i => i

/-- An upload of `a_Linux_x86_64.tar.gz`. -/
def uA : BinaryUpload :=
  ⟨"/tmp/a_Linux_x86_64.tar.gz".data, "/usr/local/bin".data, "root".data, "0755".data, false⟩

/-- An upload of `b_Linux_x86_64.tar.gz`. -/
def uB : BinaryUpload :=
  ⟨"/tmp/b_Linux_x86_64.tar.gz".data, "/usr/local/bin".data, "root".data, "0755".data, true⟩

/-- An upload of `c_Linux_x86_64.tar.gz`. -/
def uC : BinaryUpload :=
  ⟨"/tmp/c_Linux_x86_64.tar.gz".data, "/opt/bin".data, "root".data, "0700".data, false⟩

/-- An upload whose archive name starts with an underscore, violating the
naming convention. -/
def uUnderscore : BinaryUpload :=
  ⟨"_foo.tar.gz".data, "/usr/local/bin".data, "root".data, "0755".data, false⟩

/-- A two-upload configuration. -/
def cfgTwo : BinaryInstallConfig :=
  ⟨"host.example".data, "ec2-user".data, "/key.pem".data, [uA, uB],
   "/home/ec2-user/bin.old".data, false⟩

/-- A three-upload configuration (the sibling-cancellation scenario of the
specification). -/
def cfgThree : BinaryInstallConfig :=
  ⟨"host.example".data, "ec2-user".data, "/key.pem".data, [uA, uB, uC],
   "/home/ec2-user/bin.old".data, false⟩

/-- A configuration with no uploads at all. -/
def cfgEmpty : BinaryInstallConfig :=
  ⟨"host.example".data, "ec2-user".data, "/key.pem".data, [],
   "/home/ec2-user/bin.old".data, false⟩

/-- A single-upload configuration carrying the convention-violating
archive `_foo.tar.gz`. -/
def cfgUnderscore : BinaryInstallConfig :=
  ⟨"host.example".data, "ec2-user".data, "/key.pem".data, [uUnderscore],
   "/home/ec2-user/bin.old".data, false⟩

end BinaryInstall

namespace BinaryInstall

theorem splitOnChar_ne_nil (sep : Char) (l : List Char) : splitOnChar sep l ≠ [] := by
  induction l with
  | nil => simp [splitOnChar]
  | cons c cs ih =>
    rw [splitOnChar]
    rcases h : splitOnChar sep cs with _ | ⟨h₀, t⟩
    · simp
    · by_cases hc : c = sep <;> simp [hc]

theorem splitOnChar_append_sep (sep : Char) (a b : List Char) (ha : sep ∉ a) :
    splitOnChar sep (a ++ sep :: b) = a :: splitOnChar sep b := by
  induction a with
  | nil =>
    rw [List.nil_append, splitOnChar]
    rcases h : splitOnChar sep b with _ | ⟨h₀, t⟩
    · exact absurd h (splitOnChar_ne_nil sep b)
    · simp
  | cons x a' ih =>
    have hx : x ≠ sep := by intro h; exact ha (h ▸ List.mem_cons_self x a')
    have ha' : sep ∉ a' := fun h => ha (List.mem_cons_of_mem x h)
    rw [List.cons_append, splitOnChar, ih ha']
    simp [hx]

theorem trimSuffix_append (x s : List Char) : trimSuffix (x ++ s) s = x := by
  rw [trimSuffix, if_pos (List.suffix_append x s)]
  simp

theorem filepathBase_no_sep (path : List Char) (hne : path ≠ [])
    (hs : '/' ∉ path) : filepathBase path = path := by
  rw [filepathBase, if_neg hne]
  have hdrop : path.reverse.dropWhile (fun c => c = '/') = path.reverse := by
    rcases h : path.reverse with _ | ⟨c, t⟩
    · rfl
    · have hc : c ∈ path := by
        rw [← List.mem_reverse, h]; exact List.mem_cons_self c t
      have : ¬ (c = '/') := fun hcc => hs (hcc ▸ hc)
      simp [List.dropWhile_cons, this]
  have htake : path.reverse.takeWhile (fun c => c ≠ '/') = path.reverse := by
    apply List.takeWhile_eq_self_iff.mpr
    intro c hc
    have hm : c ∈ path := List.mem_reverse.mp hc
    have hne' : c ≠ '/' := fun hcc => hs (hcc ▸ hm)
    simp [hne']
  simp only [hdrop, List.reverse_reverse]
  rw [if_neg hne, htake, List.reverse_reverse]

end BinaryInstall

namespace BinaryInstall

theorem deriveBinaryName_isSome (path : List Char) :
    (deriveBinaryName path).isSome = true := by
  have h := splitOnChar_ne_nil '_' (trimSuffix (filepathBase path) ".tar.gz".data)
  unfold deriveBinaryName
  rcases hs : splitOnChar '_' (trimSuffix (filepathBase path) ".tar.gz".data) with _ | ⟨p, t⟩
  · exact absurd hs h
  · simp [hs]

/-- C6: for every archive filename `name_rest.tar.gz` whose `name` part is
non-empty and underscore-free (and which is a bare filename, i.e. contains
no path separator), the naming derivation returns exactly `name`. -/
theorem deriveBinaryName_of_convention (name rest : List Char)
    (h1 : name ≠ []) (h2 : '_' ∉ name) (h3 : '/' ∉ name) (h4 : '/' ∉ rest) :
    deriveBinaryName (name ++ '_' :: (rest ++ ".tar.gz".data)) = some name := by
  have hslash : '/' ∉ name ++ '_' :: (rest ++ ".tar.gz".data) := by
    intro hm
    rcases List.mem_append.mp hm with hm | hm
    · exact h3 hm
    rcases List.mem_cons.mp hm with hm | hm
    · exact absurd hm (by decide)
    rcases List.mem_append.mp hm with hm | hm
    · exact h4 hm
    · revert hm; decide
  have hne : name ++ '_' :: (rest ++ ".tar.gz".data) ≠ [] := by simp
  have hsplit : name ++ '_' :: (rest ++ ".tar.gz".data)
      = (name ++ '_' :: rest) ++ ".tar.gz".data := by simp
  simp only [deriveBinaryName]
  rw [filepathBase_no_sep _ hne hslash, hsplit, trimSuffix_append,
    splitOnChar_append_sep '_' name rest h2]

theorem deriveBinaryName_of_convention_witness :
    ("service".data ≠ [] ∧ '_' ∉ "service".data ∧ '/' ∉ "service".data
      ∧ '/' ∉ "Linux_x86_64".data)
    ∧ deriveBinaryName ("service".data ++ '_' :: ("Linux_x86_64".data ++ ".tar.gz".data))
        = some "service".data :=
  ⟨by decide,
   deriveBinaryName_of_convention "service".data "Linux_x86_64".data
     (by decide) (by decide) (by decide) (by decide)⟩

/-- C2: the `len(parts) == 0` guard of `processUploadSingleCommand` is
unreachable (Go's `strings.Split` never returns an empty slice), so an
archive with no characters before the first underscore does NOT fail the
name derivation: `_foo.tar.gz` and `.tar.gz` both derive the empty binary
name, and such an upload is still processed — the remote executor is
invoked once for it (and here even reports success). -/
theorem deriveBinaryName_empty_name_not_rejected :
    deriveBinaryName "_foo.tar.gz".data = some []
    ∧ deriveBinaryName ".tar.gz".data = some []
    ∧ (processUploadT sshOk cfgUnderscore 0 uUnderscore).1 = none
    ∧ (processUploadT sshOk cfgUnderscore 0 uUnderscore).2.length = 1 :=
  ⟨by decide, by decide, rfl, rfl⟩


theorem renderScript_decomp (d : ScriptData) :
    renderScript d
      = "\nset -e\n\n# 1) Make the temporary directory\n".data
        ++ (opMkTempDir d ++ rAfter1 d) := by
  simp only [renderScript, opMkTempDir, opExtract, opCheckBinary, opMkBackupDir,
    opBackupExisting, opCopyBinary, opChown, opChmod, opRemoveTempDir, opSetcap,
    rAfter1, rAfter2, rAfter3, rAfter4, rAfter5, rAfter6, rAfter7, rAfter8, rAfter9,
    List.append_assoc]

theorem ContainsInOrder.skip (pre s : List Char) (ops : List (List Char))
    (h : ContainsInOrder s ops) : ContainsInOrder (pre ++ s) ops := by
  cases h with
  | nil _ => exact ContainsInOrder.nil _
  | cons p op s' ops' h' =>
    have h2 := ContainsInOrder.cons (pre ++ p) op s' ops' h'
    simpa [List.append_assoc] using h2

theorem ContainsInOrder.take (op s : List Char) (ops : List (List Char))
    (h : ContainsInOrder s ops) : ContainsInOrder (op ++ s) (op :: ops) := by
  have h2 := ContainsInOrder.cons [] op s ops h
  simpa using h2

theorem cio_main_ops (d : ScriptData) (tailOps : List (List Char))
    (h : ContainsInOrder (rAfter9 d) tailOps) :
    ContainsInOrder (renderScript d)
      (opMkTempDir d :: opExtract d :: opCheckBinary d :: opMkBackupDir d ::
       opBackupExisting d :: opCopyBinary d :: opChown d :: opChmod d ::
       opRemoveTempDir d :: tailOps) := by
  rw [renderScript_decomp]
  apply ContainsInOrder.skip
  apply ContainsInOrder.take
  simp only [rAfter1]
  apply ContainsInOrder.skip
  apply ContainsInOrder.take
  simp only [rAfter2]
  apply ContainsInOrder.skip
  apply ContainsInOrder.take
  simp only [rAfter3]
  apply ContainsInOrder.skip
  apply ContainsInOrder.take
  simp only [rAfter4]
  apply ContainsInOrder.skip
  apply ContainsInOrder.take
  simp only [rAfter5]
  apply ContainsInOrder.skip
  apply ContainsInOrder.take
  simp only [rAfter6]
  apply ContainsInOrder.skip
  apply ContainsInOrder.take
  simp only [rAfter7]
  apply ContainsInOrder.skip
  apply ContainsInOrder.take
  simp only [rAfter8]
  apply ContainsInOrder.skip
  apply ContainsInOrder.take
  exact h

/-- C3: for every script input, the composed script contains its operations
in the fixed template order — temp-directory creation, extraction, existence
check of the expected binary, backup-directory creation, conditional move of
the existing destination binary into the backup directory, copy to the
destination, ownership change to owner:owner, permission change, temp
directory removal, and (only when bind-low-ports is set) the capability
grant.  In particular the existence check precedes every backup/copy
operation and cleanup precedes the capability grant. -/
theorem script_operations_in_order (d : ScriptData) :
    ContainsInOrder (renderScript d) (opsList d) := by
  cases hb : d.BindLowPorts with
  | false =>
    have hops : opsList d
        = [opMkTempDir d, opExtract d, opCheckBinary d, opMkBackupDir d,
           opBackupExisting d, opCopyBinary d, opChown d, opChmod d,
           opRemoveTempDir d] := by
      simp [opsList, hb]
    rw [hops]
    exact cio_main_ops d [] (ContainsInOrder.nil _)
  | true =>
    have hops : opsList d
        = [opMkTempDir d, opExtract d, opCheckBinary d, opMkBackupDir d,
           opBackupExisting d, opCopyBinary d, opChown d, opChmod d,
           opRemoveTempDir d, opSetcap d] := by
      simp [opsList, hb]
    rw [hops]
    refine cio_main_ops d [opSetcap d] ?_
    have h9 : rAfter9 d
        = "\n\n".data
          ++ ("\n# 10) Grant capability to bind to low-numbered ports\n".data
          ++ (opSetcap d ++ ("\n".data ++ "\n".data))) := by
      rw [rAfter9, hb]
      simp [List.append_assoc]
    rw [h9]
    apply ContainsInOrder.skip
    apply ContainsInOrder.skip
    apply ContainsInOrder.take
    exact ContainsInOrder.nil _


theorem countOcc_nil_of_ne (pat : List Char) (hp : pat ≠ []) : countOcc pat [] = 0 := by
  obtain ⟨p, ps, rfl⟩ := List.exists_cons_of_ne_nil hp
  simp [countOcc, List.prefix_nil]

theorem mem_of_getLast?_eq {l : List Char} {c : Char} (h : l.getLast? = some c) :
    c ∈ l := by
  have hne : l ≠ [] := by rintro rfl; simp at h
  rw [List.getLast?_eq_getLast_of_ne_nil hne] at h
  exact (Option.some.inj h) ▸ List.getLast_mem hne

theorem countOcc_append (pat : List Char) (hp : pat ≠ []) :
    ∀ a b : List Char, (lastGuard pat a ∨ headGuard pat b) →
      countOcc pat (a ++ b) = countOcc pat a + countOcc pat b := by
  intro a
  induction a with
  | nil =>
    intro b _
    rw [List.nil_append, countOcc_nil_of_ne pat hp, Nat.zero_add]
  | cons x a' ih =>
    intro b hg
    have hiff : pat <+: ((x :: a') ++ b) ↔ pat <+: (x :: a') := by
      constructor
      · intro hpre
        by_cases hlen : pat.length ≤ (x :: a').length
        · exact List.prefix_of_prefix_length_le hpre (List.prefix_append _ _) hlen
        · exfalso
          push_neg at hlen
          have hxa : (x :: a') <+: pat :=
            List.prefix_of_prefix_length_le (List.prefix_append _ _) hpre (le_of_lt hlen)
          obtain ⟨t, ht⟩ := hxa
          have htne : t ≠ [] := by
            rintro rfl
            rw [List.append_nil] at ht
            rw [← ht] at hlen
            exact lt_irrefl _ hlen
          rcases hg with ⟨c, hc, hcp⟩ | ⟨c, hc, hcp⟩
          · exact hcp (ht ▸ List.mem_append_left t (mem_of_getLast?_eq hc))
          · have htb : t <+: b := by
              rw [← ht] at hpre
              obtain ⟨s, hs⟩ := hpre
              rw [List.append_assoc] at hs
              exact ⟨s, List.append_cancel_left hs⟩
            obtain ⟨t0, ts, rfl⟩ := List.exists_cons_of_ne_nil htne
            obtain ⟨s2, hs2⟩ := htb
            have hb0 : b.head? = some t0 := by rw [← hs2]; rfl
            have ht0 : t0 = c := Option.some.inj (hb0.symm.trans hc)
            apply hcp
            rw [← ht, ← ht0]
            exact List.mem_append_right _ (List.mem_cons_self _ _)
      · intro hpre
        exact hpre.trans (List.prefix_append _ _)
    have hsum : countOcc pat (a' ++ b) = countOcc pat a' + countOcc pat b := by
      rcases eq_or_ne a' [] with rfl | ha'
      · rw [List.nil_append, countOcc_nil_of_ne pat hp, Nat.zero_add]
      · apply ih
        rcases hg with ⟨c, hc, hcp⟩ | hgr
        · left
          obtain ⟨y, ys, rfl⟩ := List.exists_cons_of_ne_nil ha'
          exact ⟨c, by rw [← hc, List.getLast?_cons_cons], hcp⟩
        · exact Or.inr hgr
    rw [List.cons_append]
    simp only [countOcc]
    rw [hsum]
    have hif : (if pat <+: x :: (a' ++ b) then 1 else 0)
        = (if pat <+: x :: a' then 1 else 0) := by
      have h2 : (pat <+: x :: (a' ++ b)) ↔ pat <+: (x :: a') := by
        rw [← List.cons_append]
        exact hiff
      exact if_congr h2 rfl rfl
    rw [hif]
    omega

theorem countOcc_joinSegs (pat : List Char) (hp : pat ≠ [])
    (ss : List (List Char)) (hg : Glued pat ss) :
    countOcc pat (joinSegs ss) = (ss.map (countOcc pat)).sum := by
  induction hg with
  | nil => simp [joinSegs, countOcc_nil_of_ne pat hp]
  | single a => simp [joinSegs, countOcc_nil_of_ne pat hp]
  | left a b rest hgg h ih =>
    rw [show joinSegs (a :: b :: rest) = a ++ joinSegs (b :: rest) from rfl]
    rw [countOcc_append pat hp _ _ (Or.inl hgg), ih]
    simp
  | right a b rest hgg h ih =>
    rw [show joinSegs (a :: b :: rest) = a ++ joinSegs (b :: rest) from rfl]
    have hhead : headGuard pat (joinSegs (b :: rest)) := by
      obtain ⟨c, hc, hcp⟩ := hgg
      refine ⟨c, ?_, hcp⟩
      rw [show joinSegs (b :: rest) = b ++ joinSegs rest from rfl]
      rcases b with _ | ⟨b0, bt⟩
      · simp at hc
      · simp at hc
        simp [hc]
    rw [countOcc_append pat hp _ _ (Or.inr hhead), ih]
    simp

theorem render_eq_joinSegs_false (d : ScriptData) (hb : d.BindLowPorts = false) :
    renderScript d = joinSegs (segsFalse d) := by
  simp [renderScript, segsFalse, joinSegs, hb, List.append_assoc]

theorem render_eq_joinSegs_true (d : ScriptData) (hb : d.BindLowPorts = true) :
    renderScript d = joinSegs (segsTrue d) := by
  simp [renderScript, segsTrue, joinSegs, hb, List.append_assoc]


/-- C5 counterexample: the claim "for every input with bind-low-ports false
the composed text contains no mention of setcap/cap_net_bind_service, and
with the flag true exactly one" fails as stated, because a configuration
field may itself mention the token: with `TempDir = "setcap"` (and the flag
false) the composed text contains an occurrence of `setcap`. -/
theorem setcap_mention_counterexample :
    ¬ (∀ d : ScriptData,
        (d.BindLowPorts = false → countOcc "setcap".data (renderScript d) = 0
          ∧ countOcc "cap_net_bind_service".data (renderScript d) = 0)
        ∧ (d.BindLowPorts = true → countOcc "setcap".data (renderScript d) = 1
          ∧ countOcc "cap_net_bind_service".data (renderScript d) = 1)) :=
  fun h => absurd ((h dBad).1 rfl).1 (by decide)

/-- C5 (amended): for every input none of whose configuration fields itself
contains `setcap` or `cap_net_bind_service` as a substring, the composed
script text contains no occurrence of either token when bind-low-ports is
false, and exactly one occurrence of each when it is true. -/
theorem setcap_mention_iff_flag (d : ScriptData)
    (hf : ∀ f ∈ scriptFields d,
      countOcc "setcap".data f = 0 ∧ countOcc "cap_net_bind_service".data f = 0) :
    (d.BindLowPorts = false → countOcc "setcap".data (renderScript d) = 0
      ∧ countOcc "cap_net_bind_service".data (renderScript d) = 0)
    ∧ (d.BindLowPorts = true → countOcc "setcap".data (renderScript d) = 1
      ∧ countOcc "cap_net_bind_service".data (renderScript d) = 1) := by
  have hT := hf d.TempDir (by simp [scriptFields])
  have hU := hf d.UploadPath (by simp [scriptFields])
  have hN := hf d.BinaryName (by simp [scriptFields])
  have hK := hf d.BackupDir (by simp [scriptFields])
  have hD := hf d.DestinationDir (by simp [scriptFields])
  have hO := hf d.Owner (by simp [scriptFields])
  have hP := hf d.Permission (by simp [scriptFields])
  constructor
  · intro hb
    rw [render_eq_joinSegs_false d hb]
    constructor
    · have hglue : Glued "setcap".data (segsFalse d) := by
        simp only [segsFalse]
        repeat
          first
          | exact Glued.single _
          | refine Glued.left _ _ _ (by decide) ?_
          | refine Glued.right _ _ _ (by decide) ?_
      rw [countOcc_joinSegs _ (by decide) _ hglue]
      simp only [segsFalse, List.map_cons, List.map_nil, List.sum_cons, List.sum_nil,
        hT.1, hU.1, hN.1, hK.1, hD.1, hO.1, hP.1]
      decide
    · have hglue : Glued "cap_net_bind_service".data (segsFalse d) := by
        simp only [segsFalse]
        repeat
          first
          | exact Glued.single _
          | refine Glued.left _ _ _ (by decide) ?_
          | refine Glued.right _ _ _ (by decide) ?_
      rw [countOcc_joinSegs _ (by decide) _ hglue]
      simp only [segsFalse, List.map_cons, List.map_nil, List.sum_cons, List.sum_nil,
        hT.2, hU.2, hN.2, hK.2, hD.2, hO.2, hP.2]
      decide
  · intro hb
    rw [render_eq_joinSegs_true d hb]
    constructor
    · have hglue : Glued "setcap".data (segsTrue d) := by
        simp only [segsTrue]
        repeat
          first
          | exact Glued.single _
          | refine Glued.left _ _ _ (by decide) ?_
          | refine Glued.right _ _ _ (by decide) ?_
      rw [countOcc_joinSegs _ (by decide) _ hglue]
      simp only [segsTrue, List.map_cons, List.map_nil, List.sum_cons, List.sum_nil,
        hT.1, hU.1, hN.1, hK.1, hD.1, hO.1, hP.1]
      decide
    · have hglue : Glued "cap_net_bind_service".data (segsTrue d) := by
        simp only [segsTrue]
        repeat
          first
          | exact Glued.single _
          | refine Glued.left _ _ _ (by decide) ?_
          | refine Glued.right _ _ _ (by decide) ?_
      rw [countOcc_joinSegs _ (by decide) _ hglue]
      simp only [segsTrue, List.map_cons, List.map_nil, List.sum_cons, List.sum_nil,
        hT.2, hU.2, hN.2, hK.2, hD.2, hO.2, hP.2]
      decide

theorem setcap_mention_iff_flag_witness :
    (∀ f ∈ scriptFields dRound,
      countOcc "setcap".data f = 0 ∧ countOcc "cap_net_bind_service".data f = 0)
    ∧ ((dRound.BindLowPorts = false → countOcc "setcap".data (renderScript dRound) = 0
        ∧ countOcc "cap_net_bind_service".data (renderScript dRound) = 0)
      ∧ (dRound.BindLowPorts = true → countOcc "setcap".data (renderScript dRound) = 1
        ∧ countOcc "cap_net_bind_service".data (renderScript dRound) = 1)) :=
  ⟨by decide, setcap_mention_iff_flag dRound (by decide)⟩


theorem runFailFast_spec (failing : List Char → Bool) :
    ∀ (pre : List (List Char)) (f : List Char) (post : List (List Char)),
      (∀ p ∈ pre, failing p = false) → failing f = true →
      runFailFast failing (pre ++ f :: post) = (pre ++ [f], false) := by
  intro pre
  induction pre with
  | nil =>
    intro f post _ hf
    simp [runFailFast, hf]
  | cons p pre' ih =>
    intro f post hpre hf
    have hp : failing p = false := hpre p (List.mem_cons_self _ _)
    have hrest := ih f post (fun q hq => hpre q (List.mem_cons_of_mem _ hq)) hf
    simp [runFailFast, hp, hrest]

/-- C7: the composed script is fail-fast: halt-on-first-error (`set -e`) is
enabled before any operation, and under fail-fast sequential execution of
the script's operations, the first failing operation terminates the run —
the executed prefix stops at the failing operation (nothing after it runs)
and the whole sequence reports failure. -/
theorem script_fail_fast (d : ScriptData) (failing : List Char → Bool)
    (pre : List (List Char)) (f : List Char) (post : List (List Char))
    (hsplit : opsList d = pre ++ f :: post)
    (hpre : ∀ p ∈ pre, failing p = false) (hf : failing f = true) :
    "\nset -e\n".data <+: renderScript d
    ∧ runFailFast failing (opsList d) = (pre ++ [f], false) := by
  constructor
  · rw [renderScript_decomp]
    have h0 : "\nset -e\n".data
        <+: "\nset -e\n\n# 1) Make the temporary directory\n".data := by decide
    exact h0.trans (List.prefix_append _ _)
  · rw [hsplit]
    exact runFailFast_spec failing pre f post hpre hf

theorem script_fail_fast_witness :
    (opsList dRound
        = [opMkTempDir dRound, opExtract dRound]
          ++ opCheckBinary dRound :: [opMkBackupDir dRound, opBackupExisting dRound,
             opCopyBinary dRound, opChown dRound, opChmod dRound, opRemoveTempDir dRound,
             opSetcap dRound]
      ∧ (∀ p ∈ [opMkTempDir dRound, opExtract dRound], failCheck p = false)
      ∧ failCheck (opCheckBinary dRound) = true)
    ∧ ("\nset -e\n".data <+: renderScript dRound
      ∧ runFailFast failCheck (opsList dRound)
          = ([opMkTempDir dRound, opExtract dRound] ++ [opCheckBinary dRound], false)) :=
  ⟨⟨by decide, by decide, by decide⟩,
   script_fail_fast dRound failCheck [opMkTempDir dRound, opExtract dRound]
     (opCheckBinary dRound)
     [opMkBackupDir dRound, opBackupExisting dRound, opCopyBinary dRound, opChown dRound,
      opChmod dRound, opRemoveTempDir dRound, opSetcap dRound]
     (by decide) (by decide) (by decide)⟩

theorem dchar_inj_lt : ∀ a < 10, ∀ b < 10, dchar a = dchar b → a = b := by decide

theorem map_dchar_inj : ∀ l1 l2 : List Nat, (∀ x ∈ l1, x < 10) → (∀ x ∈ l2, x < 10) →
    l1.map dchar = l2.map dchar → l1 = l2 := by
  intro l1
  induction l1 with
  | nil =>
    intro l2 _ _ h
    cases l2 with
    | nil => rfl
    | cons b t2 => simp at h
  | cons a t ih =>
    intro l2 h1 h2 h
    cases l2 with
    | nil => simp at h
    | cons b t2 =>
      simp only [List.map_cons, List.cons.injEq] at h
      have ha : a < 10 := h1 a (List.mem_cons_self _ _)
      have hb : b < 10 := h2 b (List.mem_cons_self _ _)
      have hab : a = b := dchar_inj_lt a ha b hb h.1
      rw [hab, ih t2 (fun x hx => h1 x (List.mem_cons_of_mem _ hx))
        (fun x hx => h2 x (List.mem_cons_of_mem _ hx)) h.2]

theorem natToDecimal_ne_zero_str {k : Nat} (hk : k ≠ 0) :
    natToDecimal k ≠ "0".data := by
  intro h
  rw [natToDecimal, if_neg hk] at h
  have h2 : (Nat.digits 10 k).map dchar = ['0'] := by
    have h3 := congrArg List.reverse h
    simpa using h3
  rcases hdig : Nat.digits 10 k with _ | ⟨d, t⟩
  · rw [hdig] at h2
    simp at h2
  · rw [hdig] at h2
    rcases t with _ | ⟨d2, t2⟩
    · simp only [List.map_cons, List.map_nil, List.cons.injEq, and_true] at h2
      have hd : d < 10 :=
        Nat.digits_lt_base (by norm_num) (by rw [hdig]; exact List.mem_cons_self _ _)
      have hd0 : d = 0 := by
        have hh : ∀ a < 10, dchar a = '0' → a = 0 := by decide
        exact hh d hd h2
      have hk0 := Nat.ofDigits_digits 10 k
      rw [hdig, hd0] at hk0
      simp [Nat.ofDigits] at hk0
      exact hk hk0.symm
    · simp at h2

theorem natToDecimal_inj {n m : Nat} (h : natToDecimal n = natToDecimal m) : n = m := by
  by_cases hn : n = 0 <;> by_cases hm : m = 0
  · rw [hn, hm]
  · exfalso
    rw [hn] at h
    rw [natToDecimal] at h
    simp only [if_pos rfl] at h
    exact natToDecimal_ne_zero_str hm h.symm
  · exfalso
    subst hm
    have h0 : natToDecimal 0 = "0".data := by simp [natToDecimal]
    rw [h0] at h
    exact natToDecimal_ne_zero_str hn h
  · rw [natToDecimal, natToDecimal, if_neg hn, if_neg hm] at h
    have h2 := List.reverse_injective h
    have h3 := map_dchar_inj _ _
      (fun x hx => Nat.digits_lt_base (by norm_num) hx)
      (fun x hx => Nat.digits_lt_base (by norm_num) hx) h2
    have e1 := Nat.ofDigits_digits 10 n
    have e2 := Nat.ofDigits_digits 10 m
    rw [← e1, ← e2, h3]


/-- C9 counterexample: with `time.Now().UnixNano()` modelled as a clock
oracle, nothing in the code prevents two distinct upload invocations from
observing the same nanosecond reading, and then their generated
temp-directory paths coincide — the unconditional distinctness claim is
false (here both invocations read nanosecond 42). -/
theorem tempDir_distinct_counterexample :
    ¬ (∀ (clock : Nat → Nat) (i j : Nat), i ≠ j →
        tempDirFor (clock i) ≠ tempDirFor (clock j)) :=
  fun h => h (fun _ => 42) 0 1 (by decide) rfl

/-- C9 (amended): the generated temp-directory path is injective in the
observed `UnixNano` reading — two upload invocations get distinct temp
directories whenever their nanosecond readings differ; a collision is
possible exactly when two invocations observe the same reading. -/
theorem tempDirFor_injective (n m : Nat) (h : n ≠ m) :
    tempDirFor n ≠ tempDirFor m := by
  intro he
  exact h (natToDecimal_inj (List.append_cancel_left he))

theorem tempDirFor_injective_witness :
    (1 : Nat) ≠ 2 ∧ tempDirFor 1 ≠ tempDirFor 2 :=
  ⟨by decide, tempDirFor_injective 1 2 (by decide)⟩


/-- C4: with an empty upload sequence, install fails immediately with the
"no uploads provided" error and the remote executor is never invoked. -/
theorem install_empty_uploads (ssh : List Char → Option (List Char))
    (nanos : Nat → Nat) (config : BinaryInstallConfig)
    (h : config.Uploads = []) :
    InstallBinaries ssh nanos config = some "no uploads provided".data
    ∧ remoteCalls ssh nanos config = [] := by
  constructor <;> simp [InstallBinaries, remoteCalls, InstallBinariesT, h]

theorem install_empty_uploads_witness :
    cfgEmpty.Uploads = []
    ∧ (InstallBinaries sshOk nanosId cfgEmpty = some "no uploads provided".data
      ∧ remoteCalls sshOk nanosId cfgEmpty = []) :=
  ⟨rfl, install_empty_uploads sshOk nanosId cfgEmpty rfl⟩

/-- C1: with a non-empty upload sequence, install succeeds exactly when every
upload's processing succeeds; any returned failure is the wrapped error of
some failing upload and carries that upload's source path. -/
theorem install_aggregates_failures (ssh : List Char → Option (List Char))
    (nanos : Nat → Nat) (config : BinaryInstallConfig)
    (hne : config.Uploads ≠ []) :
    (InstallBinaries ssh nanos config = none ↔
      ∀ iu ∈ config.Uploads.enum, (processUploadT ssh config (nanos iu.1) iu.2).1 = none)
    ∧ (∀ msg, InstallBinaries ssh nanos config = some msg →
        ∃ iu ∈ config.Uploads.enum, ∃ e,
          (processUploadT ssh config (nanos iu.1) iu.2).1 = some e
          ∧ msg = failWrap iu.2.Path e) := by
  unfold InstallBinaries InstallBinariesT
  rw [if_neg hne]
  dsimp only
  constructor
  · rw [List.head?_eq_none_iff, List.filterMap_eq_nil_iff]
    constructor
    · intro h iu hiu
      exact Option.map_eq_none'.mp (h iu hiu)
    · intro h iu hiu
      exact Option.map_eq_none'.mpr (h iu hiu)
  · intro msg hmsg
    have hmem := List.mem_of_mem_head? (Option.mem_def.mpr hmsg)
    obtain ⟨iu, hiu, hfn⟩ := List.mem_filterMap.mp hmem
    obtain ⟨e, he, hmape⟩ := Option.map_eq_some'.mp hfn
    exact ⟨iu, hiu, e, he, hmape.symm⟩

theorem install_aggregates_failures_witness :
    cfgTwo.Uploads ≠ []
    ∧ ((InstallBinaries sshOk nanosId cfgTwo = none ↔
        ∀ iu ∈ cfgTwo.Uploads.enum,
          (processUploadT sshOk cfgTwo (nanosId iu.1) iu.2).1 = none)
      ∧ (∀ msg, InstallBinaries sshOk nanosId cfgTwo = some msg →
          ∃ iu ∈ cfgTwo.Uploads.enum, ∃ e,
            (processUploadT sshOk cfgTwo (nanosId iu.1) iu.2).1 = some e
            ∧ msg = failWrap iu.2.Path e)) :=
  ⟨by decide, install_aggregates_failures sshOk nanosId cfgTwo (by decide)⟩

theorem processUploadT_calls_length (ssh : List Char → Option (List Char))
    (config : BinaryInstallConfig) (nano : Nat) (upload : BinaryUpload) :
    (processUploadT ssh config nano upload).2.length = 1 := by
  unfold processUploadT
  rcases hd : deriveBinaryName upload.Path with _ | nm
  · have hs := deriveBinaryName_isSome upload.Path
    rw [hd] at hs
    simp at hs
  · simp [hd]

theorem processUploadT_calls_ssh_blind (ssh ssh' : List Char → Option (List Char))
    (config : BinaryInstallConfig) (nano : Nat) (upload : BinaryUpload) :
    (processUploadT ssh config nano upload).2
      = (processUploadT ssh' config nano upload).2 := by
  unfold processUploadT
  rcases hd : deriveBinaryName upload.Path with _ | nm <;> simp [hd]

theorem map_congr_mem {α β : Type} (f g : α → β) :
    ∀ l : List α, (∀ x ∈ l, f x = g x) → l.map f = l.map g := by
  intro l
  induction l with
  | nil => intro _; rfl
  | cons x t ih =>
    intro h
    rw [List.map_cons, List.map_cons, h x (List.mem_cons_self _ _),
      ih (fun y hy => h y (List.mem_cons_of_mem _ hy))]

theorem flatten_length_all_one :
    ∀ L : List (List (List Char)), (∀ x ∈ L, x.length = 1) →
      L.flatten.length = L.length := by
  intro L
  induction L with
  | nil => intro _; rfl
  | cons x t ih =>
    intro h
    rw [show (x :: t).flatten = x ++ t.flatten from rfl, List.length_append,
      h x (List.mem_cons_self _ _), ih (fun y hy => h y (List.mem_cons_of_mem _ hy)),
      List.length_cons]
    omega

/-- C8: in a run with a non-empty upload sequence every upload is processed
to completion: the remote executor is invoked exactly once per upload (the
unreachable name-derivation guard rejects none of them), and the trace of
remote invocations is the same whatever the executor answers — a failing
upload can neither cancel nor skip a sibling upload. -/
theorem install_processes_all_uploads (ssh ssh' : List Char → Option (List Char))
    (nanos : Nat → Nat) (config : BinaryInstallConfig) (hne : config.Uploads ≠ []) :
    (remoteCalls ssh nanos config).length = config.Uploads.length
    ∧ remoteCalls ssh nanos config = remoteCalls ssh' nanos config := by
  constructor
  · unfold remoteCalls InstallBinariesT
    rw [if_neg hne]
    dsimp only
    rw [flatten_length_all_one _ ?_, List.length_map, List.enum_length]
    intro x hx
    obtain ⟨iu, hiu, rfl⟩ := List.mem_map.mp hx
    exact processUploadT_calls_length ssh config (nanos iu.1) iu.2
  · unfold remoteCalls InstallBinariesT
    rw [if_neg hne, if_neg hne]
    dsimp only
    exact congrArg List.flatten (map_congr_mem _ _ _
      (fun iu _ => processUploadT_calls_ssh_blind ssh ssh' config (nanos iu.1) iu.2))

theorem install_processes_all_uploads_witness :
    cfgThree.Uploads ≠ []
    ∧ ((remoteCalls sshBoom nanosId cfgThree).length = cfgThree.Uploads.length
      ∧ remoteCalls sshBoom nanosId cfgThree = remoteCalls sshOk nanosId cfgThree) :=
  ⟨by decide, install_processes_all_uploads sshBoom sshOk nanosId cfgThree (by decide)⟩

theorem infix_append_of (t s l : List Char) (h : l <:+: s) : l <:+: t ++ s :=
  h.trans ((List.suffix_append t s).isInfix)

theorem infix_head (l rest : List Char) : l <:+: l ++ rest :=
  ⟨[], rest, rfl⟩

set_option maxHeartbeats 1600000 in
/-- C10: script composition substitutes every configuration field into the
composed text verbatim — each field value occurs character for character as
a contiguous segment of the rendered script, with no quoting or escaping
applied, so any shell metacharacter in a field value reaches the executed
command string unmodified — and the whole composed script is handed to the
transport as the single final element of the `ssh` argument vector. -/
theorem fields_verbatim_single_argument (d : ScriptData)
    (config : BinaryInstallConfig) :
    (∀ f ∈ scriptFields d, f <:+: renderScript d)
    ∧ (∀ f ∈ scriptFields d, ∀ c ∈ f, c ∈ renderScript d)
    ∧ (sshArgv config (renderScript d)).length = 5
    ∧ (sshArgv config (renderScript d)).getLast? = some (renderScript d) := by
  have hinf : ∀ f ∈ scriptFields d, f <:+: renderScript d := by
    intro f hf
    simp only [scriptFields, List.mem_cons, List.not_mem_nil, or_false] at hf
    simp only [renderScript, List.append_assoc]
    rcases hf with rfl | rfl | rfl | rfl | rfl | rfl | rfl
    · iterate 2 apply infix_append_of
      exact infix_head _ _
    · iterate 5 apply infix_append_of
      exact infix_head _ _
    · iterate 13 apply infix_append_of
      exact infix_head _ _
    · iterate 17 apply infix_append_of
      exact infix_head _ _
    · iterate 21 apply infix_append_of
      exact infix_head _ _
    · iterate 41 apply infix_append_of
      exact infix_head _ _
    · iterate 51 apply infix_append_of
      exact infix_head _ _
  refine ⟨hinf, fun f hf c hc => (hinf f hf).subset hc, rfl, rfl⟩

theorem fields_verbatim_single_argument_witness :
    (∀ f ∈ scriptFields dRound, f <:+: renderScript dRound)
    ∧ (∀ f ∈ scriptFields dRound, ∀ c ∈ f, c ∈ renderScript dRound)
    ∧ (sshArgv cfgTwo (renderScript dRound)).length = 5
    ∧ (sshArgv cfgTwo (renderScript dRound)).getLast? = some (renderScript dRound) :=
  fields_verbatim_single_argument dRound cfgTwo

end BinaryInstall
